import Mathlib

/-!
Shallow embedding of the interest-cache engine of `tokio-trace`
(`src/tokio-trace/src/lib.rs`, the `callsite!`, `span!` and `event!`
macro expansions) together with the scoped mutable cell of `tokio-sync`
(`src/tokio-sync/src/loom.rs`), and proofs of the specification's claims
about them.

The per-callsite cached interest is a `static INTEREST: AtomicUsize`
whose value we model as a `Nat`; the tri-state `Interest` verdict is the
decoding performed by `MyCallsite::interest`.
-/

namespace TokioTrace

/-- Modelled from the spec: the tri-state `Interest` value of the
`tokio-trace-core` crate (not under `src/`): `Never` (no active
subscriber wants this), `Sometimes` (must ask at record time),
`Always` (unconditionally record). -/
inductive Interest where
  | never
  | sometimes
  | always
deriving DecidableEq, Repr, Fintype

/-- Modelled from the spec: the core crate's `Interest::is_never` test. -/
def Interest.is_never : Interest → Bool
  | .never => true
  | _ => false

/-- Modelled from the spec: the core crate's `Interest::is_sometimes` test. -/
def Interest.is_sometimes : Interest → Bool
  | .sometimes => true
  | _ => false

/-- Modelled from the spec: the core crate's `Interest::is_always` test. -/
def Interest.is_always : Interest → Bool
  | .always => true
  | _ => false

/-- Numeric rank of an `Interest` verdict under the ordering
`Never < Sometimes < Always` used by the spec's monotonicity claims. -/
def Interest.toNat : Interest → Nat
  | .never => 0
  | .sometimes => 1
  | .always => 2

/-- The larger of two `Interest` verdicts under `Never < Sometimes < Always`. -/
def maxInterest (a b : Interest) : Interest :=
  if a.toNat ≤ b.toNat then b else a

namespace MyCallsite

/-- Initial value of the per-callsite `static INTEREST: AtomicUsize`,
declared as `ATOMIC_USIZE_INIT` (zero) at `src/tokio-trace/src/lib.rs:296`. -/
def INTEREST_INIT : Nat := 0

/-- `MyCallsite::interest` (src/tokio-trace/src/lib.rs:299-306): decode the
raw value of the `INTEREST` atomic, mapping `0` to `NEVER`, `2` to
`ALWAYS`, and anything else to `SOMETIMES`. -/
def interest (raw : Nat) : Interest :=
  match raw with
  | 0 => .never
  | 2 => .always
  | _ => .sometimes

/-- `MyCallsite::add_interest` (src/tokio-trace/src/lib.rs:309-327): reads
the current decoded interest, then either returns without storing (when
the contribution is `NEVER`, or in the fall-through case) or stores `1`
(a `SOMETIMES` contribution over a current `NEVER`) or `2` (an `ALWAYS`
contribution). The returned `Nat` is the raw `INTEREST` value after the
call. -/
def add_interest (raw : Nat) (new : Interest) : Nat :=
  let current_interest := interest raw
  if new.is_never then raw
  else if new.is_sometimes && current_interest.is_never then 1
  else if new.is_always then 2
  else raw

/-- `MyCallsite::remove_interest` (src/tokio-trace/src/lib.rs:328-330):
stores `0` into the `INTEREST` atomic unconditionally. -/
def remove_interest (_raw : Nat) : Nat := 0

end MyCallsite

/-- State of the statics generated by one `callsite!` expansion: the raw
value of `static INTEREST: AtomicUsize` (src/tokio-trace/src/lib.rs:296),
the completion flag of `static REGISTRATION: Once`
(src/tokio-trace/src/lib.rs:297), and the number of times
`callsite::register` has been invoked for this callsite. -/
structure CallsiteState where
  interest : Nat
  onceDone : Bool
  registerCalls : Nat
deriving DecidableEq, Repr

/-- The statics before the instrumentation point first executes:
`INTEREST` is `ATOMIC_USIZE_INIT` (zero), the `Once` has not run, and
`callsite::register` has never been invoked. -/
def initialCallsiteState : CallsiteState :=
  ⟨MyCallsite.INTEREST_INIT, false, 0⟩

/-- Modelled from the spec: `callsite::register` of `tokio-trace-core` is
not under `src/`; per §4.1 it appends the callsite to the process-wide
registry and "must not duplicate registry entries or reset its cached
Interest", so it leaves the cached `INTEREST` untouched. Here only the
invocation count is recorded. -/
def registerCallsite (s : CallsiteState) : CallsiteState :=
  { s with registerCalls := s.registerCalls + 1 }

/-- One execution of the instrumentation point's registration statement
`REGISTRATION.call_once(|| callsite::register(&MyCallsite))`
(src/tokio-trace/src/lib.rs:335-337): the `Once` one-time-execution
primitive runs the closure on the first execution only and does nothing
afterwards. -/
def executeCallsite (s : CallsiteState) : CallsiteState :=
  if s.onceDone then s
  else { registerCallsite s with onceDone := true }

/-- The callsite statics after `n` executions of the instrumentation
point, starting from the initial statics. -/
def runCallsite : Nat → CallsiteState
  | 0 => initialCallsiteState
  | n + 1 => executeCallsite (runCallsite n)

/-- Modelled from the spec: the disabled test of `Span::new` /
`Event::new` (the `span` module is not under `src/`): per §4.3 a
span/event is disabled when the Interest captured at construction is
`Never`, or when no subscriber is current. -/
def is_disabled (interest : Interest) (hasSubscriber : Bool) : Bool :=
  interest.is_never || !hasSubscriber

/-- Trace of one `span!` or `event!` macro expansion: the field-value
expressions that were evaluated, in evaluation order, and the recording
calls issued, as (field-key, value) pairs in call order. -/
structure MacroTrace (α : Type) where
  evaluatedExprs : List α
  recordCalls : List (String × α)
deriving DecidableEq, Repr

/-- Declared field-name list produced by the `callsite!` macro for a span
(src/tokio-trace/src/lib.rs:259-266): exactly the user-written field
names, in written order. -/
def spanFieldNames (userFields : List String) : List String := userFields

/-- Declared field-name list produced by the `callsite!` macro for an
event (src/tokio-trace/src/lib.rs:269-276): the implicit "message" field
followed by the user-written field names in written order. -/
def eventFieldNames (userFields : List String) : List String :=
  "message" :: userFields

/-- Expansion of `span!` (src/tokio-trace/src/lib.rs:371-392): the whole
field-recording block is guarded by `if !span.is_disabled()`, so when the
span is disabled no field-value expression is evaluated and no `record`
call is made; otherwise each field value is evaluated and recorded
against the next key drawn, in declared order, from the metadata's field
list. Field-value expressions are passed as thunks; a thunk is forced
only where the expansion evaluates the expression. -/
def spanMacroExpand (interest : Interest) (hasSubscriber : Bool)
    (userFields : List String) (fieldExprs : List (Unit → α)) :
    MacroTrace α :=
  if is_disabled interest hasSubscriber then ⟨[], []⟩
  else
    let vals := fieldExprs.map (fun t => t ())
    ⟨vals, List.zip (spanFieldNames userFields) vals⟩

/-- Expansion of `event!` with a message (src/tokio-trace/src/lib.rs:406-434):
the whole recording block is guarded by `if !event.is_disabled()`, so
when the event is disabled neither the message nor any field value is
evaluated and nothing is recorded; otherwise the message is evaluated and
recorded against the first declared key, then each field value is
evaluated and recorded against the subsequent keys in declared order. -/
def eventMacroExpand (interest : Interest) (hasSubscriber : Bool)
    (userFields : List String) (message : Unit → α)
    (fieldExprs : List (Unit → α)) : MacroTrace α :=
  if is_disabled interest hasSubscriber then ⟨[], []⟩
  else
    let msg := message ()
    let vals := fieldExprs.map (fun t => t ())
    ⟨msg :: vals, List.zip (eventFieldNames userFields) (msg :: vals)⟩

end TokioTrace

namespace TokioSync

/-- The scoped mutable cell of `src/tokio-sync/src/loom.rs:11`: a wrapper
around a single mutable value (an `UnsafeCell` in the source, here the
value itself, with mutation modelled by explicit state passing). -/
structure CausalCell (α : Type) where
  data : α

/-- `CausalCell::new` (src/tokio-sync/src/loom.rs:14-16): wrap the value. -/
def CausalCell.new (v : α) : CausalCell α := ⟨v⟩

/-- `CausalCell::with` (src/tokio-sync/src/loom.rs:18-23): apply a
closure to a shared reference to the stored value and return its result;
the cell is unchanged. -/
def CausalCell.with' (c : CausalCell α) (f : α → β) : β := f c.data

/-- `CausalCell::with_mut` (src/tokio-sync/src/loom.rs:25-30): apply a
closure to a mutable reference to the stored value. The Rust closure
`FnOnce(&mut T) -> R` is modelled as a function returning the updated
value together with its result; the call returns the result and the
updated cell. -/
def CausalCell.with_mut (c : CausalCell α) (g : α → α × β) :
    β × CausalCell α :=
  ((g c.data).2, ⟨(g c.data).1⟩)

end TokioSync

namespace TokioTrace

/-- C1: `add_interest` follows the spec's precedence rule exactly: a
`Never` contribution leaves the cached verdict unchanged; a `Sometimes`
contribution upgrades a cached `Never` to `Sometimes`; an `Always`
contribution always yields `Always`; every other case leaves the cached
verdict unchanged. Quantified over every raw cached value and every
contribution. -/
theorem add_interest_follows_precedence (raw : Nat) (new : Interest) :
    MyCallsite.interest (MyCallsite.add_interest raw new) =
      match new, MyCallsite.interest raw with
      | .never, cur => cur
      | .sometimes, .never => .sometimes
      | .sometimes, cur => cur
      | .always, _ => .always := by
  cases new <;> rcases raw with _ | _ | _ | r <;> rfl

/-- C2: `add_interest` is monotone non-decreasing on the cached verdict
under `Never < Sometimes < Always`, and once the cached verdict is
`Always` no `add_interest` call changes the raw state at all. -/
theorem add_interest_monotone (raw : Nat) (new : Interest) :
    (MyCallsite.interest raw).toNat ≤
        (MyCallsite.interest (MyCallsite.add_interest raw new)).toNat ∧
      (MyCallsite.interest raw = .always →
        MyCallsite.add_interest raw new = raw) := by
  constructor
  · cases new <;> rcases raw with _ | _ | _ | r <;> simp [MyCallsite.add_interest,
      MyCallsite.interest, Interest.is_never, Interest.is_sometimes,
      Interest.is_always, Interest.toNat]
  · intro h
    cases new <;> rcases raw with _ | _ | _ | r <;>
      simp_all [MyCallsite.add_interest, MyCallsite.interest,
        Interest.is_never, Interest.is_sometimes, Interest.is_always]

/-- Witness for C2 at the concrete raw state `2` (cached `Always`) and a
`Sometimes` contribution: the state is left unchanged. -/
theorem add_interest_monotone_witness :
    MyCallsite.add_interest 2 Interest.sometimes = 2 :=
  (add_interest_monotone 2 Interest.sometimes).2 (by rfl)

/-- C3: the `INTEREST` atomic starts at the no-interest value `0`, which
`interest()` decodes to `Never`, and folding any sequence of `Never`
contributions through `add_interest` from that initial state leaves the
raw state at `0`, so the decoded verdict stays `Never` until the first
non-`Never` contribution. -/
theorem initial_interest_never (l : List Interest) (h : ∀ i ∈ l, i = Interest.never) :
    MyCallsite.INTEREST_INIT = 0 ∧
      MyCallsite.interest MyCallsite.INTEREST_INIT = .never ∧
      List.foldl MyCallsite.add_interest MyCallsite.INTEREST_INIT l = 0 ∧
      MyCallsite.interest (List.foldl MyCallsite.add_interest MyCallsite.INTEREST_INIT l) = .never := by
  have hfold : List.foldl MyCallsite.add_interest MyCallsite.INTEREST_INIT l = 0 := by
    induction l with
    | nil => rfl
    | cons x xs ih =>
        have hx : x = Interest.never := h x (List.mem_cons_self x xs)
        have hrest : ∀ i ∈ xs, i = Interest.never := fun i hi => h i (List.mem_cons_of_mem x hi)
        subst hx
        simpa [List.foldl_cons, MyCallsite.add_interest, MyCallsite.INTEREST_INIT,
          MyCallsite.interest, Interest.is_never] using ih hrest
  refine ⟨rfl, rfl, hfold, ?_⟩
  rw [hfold]; rfl

/-- Witness for C3 at the concrete contribution list `[Never, Never]`. -/
theorem initial_interest_never_witness :
    MyCallsite.interest
      (List.foldl MyCallsite.add_interest MyCallsite.INTEREST_INIT
        [Interest.never, Interest.never]) = .never :=
  (initial_interest_never [Interest.never, Interest.never] (by decide)).2.2.2

/-- C4: for every prior raw cached state, `remove_interest` resets the
state to `0`, and `interest()` decodes the state after `remove_interest`
to `Never`. -/
theorem remove_interest_resets (raw : Nat) :
    MyCallsite.remove_interest raw = 0 ∧
      MyCallsite.interest (MyCallsite.remove_interest raw) = .never :=
  ⟨rfl, rfl⟩

/-- C9: the `interest()` decoder is total over the stored integer state:
`0` decodes to `NEVER`, `2` to `ALWAYS`, and every other value decodes to
`SOMETIMES`. -/
theorem interest_decoder_total (n : Nat) (h0 : n ≠ 0) (h2 : n ≠ 2) :
    MyCallsite.interest 0 = .never ∧
      MyCallsite.interest 2 = .always ∧
      MyCallsite.interest n = .sometimes := by
  refine ⟨rfl, rfl, ?_⟩
  rcases n with _ | _ | _ | m
  · exact absurd rfl h0
  · rfl
  · exact absurd rfl h2
  · rfl

/-- Witness for C9 at the concrete stored value `5` (neither `0` nor `2`
nor the canonical `1`): it decodes to `SOMETIMES`. -/
theorem interest_decoder_total_witness :
    MyCallsite.interest 5 = .sometimes :=
  (interest_decoder_total 5 (by decide) (by decide)).2.2

/-- A single `add_interest` step combines the cached verdict with the
contribution by maximum under `Never < Sometimes < Always`. -/
theorem interest_add_interest_step (raw : Nat) (new : Interest) :
    MyCallsite.interest (MyCallsite.add_interest raw new) =
      maxInterest (MyCallsite.interest raw) new := by
  cases new <;> rcases raw with _ | _ | _ | r <;> rfl

/-- Folding contributions through `add_interest` computes, at the decoded
level, the fold of `maxInterest` over the contributions. -/
theorem interest_foldl_add_interest (l : List Interest) (raw : Nat) :
    MyCallsite.interest (List.foldl MyCallsite.add_interest raw l) =
      List.foldl maxInterest (MyCallsite.interest raw) l := by
  induction l generalizing raw with
  | nil => rfl
  | cons x xs ih =>
      rw [List.foldl_cons, List.foldl_cons, ih, interest_add_interest_step]

theorem maxInterest_assoc (a b c : Interest) :
    maxInterest (maxInterest a b) c = maxInterest a (maxInterest b c) := by
  revert a b c; decide

theorem maxInterest_right_comm (b a c : Interest) :
    maxInterest (maxInterest b a) c = maxInterest (maxInterest b c) a := by
  revert b a c; decide

theorem maxInterest_never_left (a : Interest) : maxInterest .never a = a := by
  revert a; decide

theorem maxInterest_never_right (a : Interest) : maxInterest a .never = a := by
  revert a; decide

theorem maxInterest_idem (a : Interest) : maxInterest a a = a := by
  revert a; decide

/-- Folding `maxInterest` from an arbitrary accumulator factors through
the fold from `Never`. -/
theorem foldl_maxInterest_factor (l : List Interest) (a : Interest) :
    List.foldl maxInterest a l =
      maxInterest a (List.foldl maxInterest .never l) := by
  induction l generalizing a with
  | nil => simp [maxInterest_never_right]
  | cons x xs ih =>
      rw [List.foldl_cons, List.foldl_cons, ih (maxInterest a x),
        ih (maxInterest Interest.never x), maxInterest_never_left,
        maxInterest_assoc]

/-- C8: folding any finite collection of contributions into a callsite via
`add_interest`, starting from the reset state, yields exactly the maximum
contribution under `Never < Sometimes < Always`; the result is invariant
under permuting the contributions, and repeating every contribution a
second time changes nothing. -/
theorem fold_add_interest_is_max (l l' : List Interest) (h : l.Perm l') :
    MyCallsite.interest
        (List.foldl MyCallsite.add_interest (MyCallsite.remove_interest 0) l) =
        List.foldl maxInterest .never l ∧
      MyCallsite.interest
          (List.foldl MyCallsite.add_interest (MyCallsite.remove_interest 0) l) =
        MyCallsite.interest
          (List.foldl MyCallsite.add_interest (MyCallsite.remove_interest 0) l') ∧
      MyCallsite.interest
          (List.foldl MyCallsite.add_interest (MyCallsite.remove_interest 0) (l ++ l)) =
        MyCallsite.interest
          (List.foldl MyCallsite.add_interest (MyCallsite.remove_interest 0) l) := by
  have hperm : List.foldl maxInterest .never l = List.foldl maxInterest .never l' :=
    List.Perm.foldl_eq' h
      (fun x _ y _ z => maxInterest_right_comm z x y) Interest.never
  refine ⟨?_, ?_, ?_⟩
  · simpa using interest_foldl_add_interest l 0
  · rw [show MyCallsite.remove_interest 0 = 0 from rfl,
      interest_foldl_add_interest l 0, interest_foldl_add_interest l' 0]
    simpa using hperm
  · rw [show MyCallsite.remove_interest 0 = 0 from rfl,
      interest_foldl_add_interest (l ++ l) 0, interest_foldl_add_interest l 0,
      List.foldl_append]
    show List.foldl maxInterest (List.foldl maxInterest (MyCallsite.interest 0) l) l = _
    rw [show MyCallsite.interest 0 = Interest.never from rfl,
      foldl_maxInterest_factor l (List.foldl maxInterest Interest.never l),
      maxInterest_idem]

/-- Witness for C8 at the concrete contribution lists
`[Sometimes, Always]` and its permutation `[Always, Sometimes]`. -/
theorem fold_add_interest_is_max_witness :
    MyCallsite.interest
        (List.foldl MyCallsite.add_interest (MyCallsite.remove_interest 0)
          [Interest.sometimes, Interest.always]) =
      List.foldl maxInterest .never [Interest.sometimes, Interest.always] :=
  (fold_add_interest_is_max [Interest.sometimes, Interest.always]
    [Interest.always, Interest.sometimes] (by decide)).1

/-- After any number of executions, the callsite statics are either still
initial or exactly one registration has happened with the `Once` marked
done and `INTEREST` untouched. -/
theorem runCallsite_cases (n : Nat) :
    runCallsite n = initialCallsiteState ∨
      runCallsite n = ⟨MyCallsite.INTEREST_INIT, true, 1⟩ := by
  induction n with
  | zero => exact Or.inl rfl
  | succ m ih =>
      right
      show executeCallsite (runCallsite m) = _
      rcases ih with h | h
      · rw [h]; rfl
      · rw [h]; rfl

/-- C5: callsite registration is idempotent: across any number of
executions of the instrumentation point, `callsite::register` is invoked
at most once (guarded by the `Once` primitive); executing the
registration block twice is the same as executing it once; and an
execution never changes the cached `INTEREST` value. -/
theorem register_idempotent (n : Nat) (s : CallsiteState) :
    (runCallsite n).registerCalls ≤ 1 ∧
      executeCallsite (executeCallsite s) = executeCallsite s ∧
      (executeCallsite s).interest = s.interest := by
  refine ⟨?_, ?_, ?_⟩
  · rcases runCallsite_cases n with h | h
    · rw [h]; decide
    · rw [h]
  · have hdone : (executeCallsite s).onceDone = true := by
      unfold executeCallsite
      split
      · assumption
      · rfl
    show (if (executeCallsite s).onceDone then executeCallsite s
      else { registerCallsite (executeCallsite s) with onceDone := true }) = _
    rw [hdone]
    rfl
  · unfold executeCallsite registerCallsite
    split <;> rfl

/-- C6: when a span or event is disabled (its Interest at construction is
`Never`, or no subscriber is current), the `span!` and `event!`
expansions force no field-value thunk and issue no `record` call: the
trace is empty on both components. -/
theorem disabled_skips_field_exprs {α : Type} (interest : Interest)
    (hasSubscriber : Bool) (userFields : List String)
    (message : Unit → α) (fieldExprs : List (Unit → α))
    (h : is_disabled interest hasSubscriber = true) :
    spanMacroExpand interest hasSubscriber userFields fieldExprs = ⟨[], []⟩ ∧
      eventMacroExpand interest hasSubscriber userFields message fieldExprs =
        ⟨[], []⟩ := by
  constructor <;> simp [spanMacroExpand, eventMacroExpand, h]

/-- Witness for C6 at `Never` interest, a present subscriber, and one
concrete field thunk: nothing is evaluated or recorded. -/
theorem disabled_skips_field_exprs_witness :
    spanMacroExpand (α := Nat) .never true ["x"] [fun _ => 7] = ⟨[], []⟩ :=
  (disabled_skips_field_exprs .never true ["x"] (fun _ => 0)
    [fun _ => 7] rfl).1

/-- C7: an event callsite's declared field list is the implicit "message"
field followed by the user fields in written order, and an enabled event
records the message against the first key and each user-field value
against the subsequent keys in that declared order (one value per key),
evaluating the message first and then the field values in order. -/
theorem event_field_order {α : Type} (userFields : List String)
    (msg : α) (vals : List α) (interest : Interest)
    (h : interest ≠ Interest.never) :
    eventFieldNames userFields = "message" :: userFields ∧
      (eventMacroExpand interest true userFields (fun _ => msg)
          (vals.map (fun v _ => v))).recordCalls =
        ("message", msg) :: List.zip userFields vals ∧
      (eventMacroExpand interest true userFields (fun _ => msg)
          (vals.map (fun v _ => v))).evaluatedExprs = msg :: vals := by
  have hnd : is_disabled interest true = false := by
    cases interest
    · exact absurd rfl h
    · rfl
    · rfl
  have hmap : ∀ l : List α, List.map ((fun t => t ()) ∘ fun v (_ : Unit) => v) l = l := by
    intro l
    induction l with
    | nil => rfl
    | cons a t ih => rw [List.map_cons, ih]; rfl
  refine ⟨rfl, ?_, ?_⟩ <;>
    simp [eventMacroExpand, hnd, eventFieldNames, List.map_map, hmap]

/-- Witness for C7 at the spec's scenario shape: one user field "count"
with message "ready"; the declared keys are ["message", "count"] and the
record calls pair them with the values in order. -/
theorem event_field_order_witness :
    (eventMacroExpand (α := String) .always true ["count"]
        (fun _ => "ready") (["3"].map (fun v _ => v))).recordCalls =
      ("message", "ready") :: List.zip ["count"] ["3"] :=
  (event_field_order ["count"] "ready" ["3"] .always (by decide)).2.1

end TokioTrace

namespace TokioSync

/-- C10: the scoped mutable cell gives closure-scoped access to exactly
the stored value: `with` on a fresh cell applies the closure to the
stored value; `with_mut` applies its closure to the current value in
place and returns its result; and a subsequent `with` observes the value
as mutated. -/
theorem causal_cell_scoped_access {α β γ : Type} (v : α) (f : α → β)
    (g : α → α × γ) :
    (CausalCell.new v).with' f = f v ∧
      ((CausalCell.new v).with_mut g).1 = (g v).2 ∧
      (((CausalCell.new v).with_mut g).2).with' f = f (g v).1 :=
  ⟨rfl, rfl, rfl⟩

end TokioSync
